import Mathlib

/-!
Verification of the devploy-backend build-and-publish pipeline.

The definitions below are a shallow embedding of the TypeScript source
(`src/index.ts` and the earlier revisions of the same server).  The object
store (Cloudflare R2 through the S3 API) is modelled as an association list
from keys to stored objects; `ListObjectsV2` is modelled as listing every
key that begins with the requested key prefix, `DeleteObjectCommand` as
removal of one key, and `PutObjectCommand` as an overwriting insert.
-/

/-- Boolean test that the first character list is a prefix of the second,
written out so that all lemmas about it are proved in this file. -/
def listIsPfxOf : List Char → List Char → Bool
  | [], _ => true
  | _ :: _, [] => false
  | a :: as, b :: bs => a == b && listIsPfxOf as bs

/-- Boolean substring test: does `pat` occur somewhere inside `text`? -/
def containsSub (pat : List Char) : List Char → Bool
  | [] => listIsPfxOf pat []
  | c :: rest => listIsPfxOf pat (c :: rest) || containsSub pat rest

theorem listIsPfxOf_append (l t : List Char) : listIsPfxOf l (l ++ t) = true := by
  induction l with
  | nil => rfl
  | cons a as ih => simp [listIsPfxOf, ih]

theorem listIsPfxOf_self (l : List Char) : listIsPfxOf l l = true := by
  have h := listIsPfxOf_append l []
  simpa using h

/-- An object stored in the bucket: a body and the content type recorded at
upload time (`PutObjectCommand` always records one; the model allows `none`
so that serving objects with an absent content type is also covered). -/
structure StoredObject where
  body : String
  contentType : Option String
deriving DecidableEq, Repr

/-- The bucket, as an association list from keys to objects. -/
abbrev Store := List (String × StoredObject)

/-- Lookup of one key (`GetObjectCommand`). -/
def lookupStore (s : Store) (k : String) : Option StoredObject :=
  (s.find? (fun e => e.1 == k)).map (fun e => e.2)

/-- Removal of one key (`DeleteObjectCommand`); deleting an absent key is a
no-op, matching the store contract. -/
def deleteKey (s : Store) (k : String) : Store :=
  s.filter (fun e => !(e.1 == k))

/-- All keys beginning with `pfx` (`ListObjectsV2Command` with a `Prefix`). -/
def listKeysWithPfx (s : Store) (pfx : String) : List String :=
  (s.map (fun e => e.1)).filter (fun k => listIsPfxOf pfx.data k.data)

/-- Embedding of `deleteFolderFromR2` from `src/index.ts`: list every key
under the prefix, then delete each listed key in turn.  (The early return on
an empty listing is the same as folding over an empty list.) -/
def deleteFolderFromR2 (s : Store) (pfx : String) : Store :=
  (listKeysWithPfx s pfx).foldl deleteKey s

/-- One `PutObjectCommand` issued by `uploadDirToR2`. -/
structure PutCall where
  key : String
  body : String
  contentType : String
deriving DecidableEq, Repr

/-- Applying one put to the bucket: overwriting insert. -/
def putObject (s : Store) (p : PutCall) : Store :=
  (p.key, ⟨p.body, some p.contentType⟩) :: deleteKey s p.key

/-- Applying a sequence of puts in order. -/
def applyPuts (s : Store) (ps : List PutCall) : Store :=
  ps.foldl putObject s

/-- The last put in `ps` whose key is `k`, if any: this is the put whose
content survives in the bucket. -/
def lastPut? : List PutCall → String → Option PutCall
  | [], _ => none
  | p :: ps, k =>
    match lastPut? ps k with
    | some q => some q
    | none => if p.key == k then some p else none

theorem lookupStore_cons_eq (e : String × StoredObject) (s : Store) (k : String)
    (h : e.1 = k) : lookupStore (e :: s) k = some e.2 := by
  simp [lookupStore, List.find?_cons, h]

theorem lookupStore_cons_ne (e : String × StoredObject) (s : Store) (k : String)
    (h : ¬ e.1 = k) : lookupStore (e :: s) k = lookupStore s k := by
  simp [lookupStore, List.find?_cons, h]

theorem lookupStore_deleteKey_self (s : Store) (k : String) :
    lookupStore (deleteKey s k) k = none := by
  induction s with
  | nil => rfl
  | cons e rest ih =>
    by_cases he : e.1 = k
    · simpa [deleteKey, List.filter_cons, he] using ih
    · rw [show deleteKey (e :: rest) k = e :: deleteKey rest k by
        simp [deleteKey, List.filter_cons, he]]
      rw [lookupStore_cons_ne e _ k he]
      exact ih

theorem lookupStore_deleteKey_ne (s : Store) (k0 k : String) (h : ¬ k = k0) :
    lookupStore (deleteKey s k0) k = lookupStore s k := by
  induction s with
  | nil => rfl
  | cons e rest ih =>
    by_cases he : e.1 = k0
    · have hek : ¬ e.1 = k := by rw [he]; intro hh; exact h hh.symm
      rw [show deleteKey (e :: rest) k0 = deleteKey rest k0 by
        simp [deleteKey, List.filter_cons, he]]
      rw [lookupStore_cons_ne e rest k hek]
      exact ih
    · rw [show deleteKey (e :: rest) k0 = e :: deleteKey rest k0 by
        simp [deleteKey, List.filter_cons, he]]
      by_cases hek : e.1 = k
      · rw [lookupStore_cons_eq e _ k hek, lookupStore_cons_eq e rest k hek]
      · rw [lookupStore_cons_ne e _ k hek, lookupStore_cons_ne e rest k hek]
        exact ih

theorem lookupStore_deleteKey (s : Store) (k0 k : String) :
    lookupStore (deleteKey s k0) k = if k = k0 then none else lookupStore s k := by
  by_cases h : k = k0
  · simp [h, lookupStore_deleteKey_self]
  · simp [h, lookupStore_deleteKey_ne s k0 k h]

theorem lookupStore_foldl_deleteKey (ks : List String) (s : Store) (k : String) :
    lookupStore (ks.foldl deleteKey s) k =
      if k ∈ ks then none else lookupStore s k := by
  induction ks generalizing s with
  | nil => simp
  | cons k0 rest ih =>
    simp only [List.foldl_cons]
    rw [ih]
    by_cases hm : k ∈ rest
    · simp [hm]
    · by_cases hk : k = k0
      · simp [hm, hk, lookupStore_deleteKey]
      · simp [hm, hk, lookupStore_deleteKey]

theorem lookupStore_eq_none_of_not_mem_keys (s : Store) (k : String)
    (h : k ∉ s.map (fun e => e.1)) : lookupStore s k = none := by
  induction s with
  | nil => rfl
  | cons e rest ih =>
    simp only [List.map_cons, List.mem_cons] at h
    push_neg at h
    have h1 : (e.1 == k) = false := by
      simp; intro he; exact h.1 he.symm
    simp only [lookupStore, List.find?]
    rw [h1]
    exact ih h.2

/-- After `deleteFolderFromR2`, every key under the prefix is gone and every
other key is untouched. -/
theorem lookupStore_deleteFolderFromR2 (s : Store) (pfx k : String) :
    lookupStore (deleteFolderFromR2 s pfx) k =
      if listIsPfxOf pfx.data k.data then none else lookupStore s k := by
  unfold deleteFolderFromR2
  rw [lookupStore_foldl_deleteKey]
  by_cases hp : listIsPfxOf pfx.data k.data
  · simp only [hp, if_true]
    by_cases hm : k ∈ listKeysWithPfx s pfx
    · simp [hm]
    · have hk : k ∉ s.map (fun e => e.1) := by
        intro hmem
        exact hm (by simp [listKeysWithPfx, List.mem_filter, hmem, hp])
      simp [hm, lookupStore_eq_none_of_not_mem_keys s k hk]
  · have hm : k ∉ listKeysWithPfx s pfx := by
      intro hmem
      simp only [listKeysWithPfx, List.mem_filter] at hmem
      exact hp hmem.2
    simp [hm, hp]

theorem lookupStore_putObject (s : Store) (p : PutCall) (k : String) :
    lookupStore (putObject s p) k =
      if p.key = k then some ⟨p.body, some p.contentType⟩
      else lookupStore s k := by
  by_cases h : p.key = k
  · rw [if_pos h]
    exact lookupStore_cons_eq _ _ _ h
  · have hk : ¬ k = p.key := fun he => h he.symm
    rw [if_neg h]
    show lookupStore ((p.key, ⟨p.body, some p.contentType⟩) :: deleteKey s p.key) k
      = lookupStore s k
    rw [lookupStore_cons_ne _ _ _ h]
    exact lookupStore_deleteKey_ne s p.key k hk

/-- The bucket after a sequence of puts: the last put of a key wins; keys not
put at all keep their previous content. -/
theorem lookupStore_applyPuts (ps : List PutCall) (s : Store) (k : String) :
    lookupStore (applyPuts s ps) k =
      match lastPut? ps k with
      | some q => some ⟨q.body, some q.contentType⟩
      | none => lookupStore s k := by
  induction ps generalizing s with
  | nil => simp [applyPuts, lastPut?]
  | cons p rest ih =>
    simp only [applyPuts, List.foldl_cons] at *
    rw [ih]
    cases hl : lastPut? rest k with
    | some q => simp [lastPut?, hl]
    | none =>
      simp only [lastPut?, hl]
      rw [lookupStore_putObject]
      by_cases h : p.key = k
      · simp [h]
      · simp [h]

theorem lastPut?_eq_none_iff (ps : List PutCall) (k : String) :
    lastPut? ps k = none ↔ k ∉ ps.map PutCall.key := by
  induction ps with
  | nil => simp [lastPut?]
  | cons p rest ih =>
    simp only [lastPut?, List.map_cons, List.mem_cons]
    cases hl : lastPut? rest k with
    | some q =>
      simp only []
      constructor
      · intro h; exact absurd h (by simp)
      · intro h
        push_neg at h
        exact absurd (hl ▸ (ih.mpr h.2)) (by simp [hl])
    | none =>
      by_cases h : p.key = k
      · simp [h]
      · have hn : k ∉ rest.map PutCall.key := ih.mp hl
        have h' : ¬ k = p.key := fun he => h he.symm
        simp [h, h', hn]

/-!  Local directory trees and `uploadDirToR2`. -/

/-- A directory entry of the local build-output tree, as seen through
`fs.readdirSync(dir, { withFileTypes: true })`: either a file with its
content, or a subdirectory with its own entries. -/
inductive Dirent where
  | file (name : String) (content : String)
  | dir (name : String) (children : List Dirent)

/-- Embedding of `uploadDirToR2(dirPath, subdomain)` from `src/index.ts`,
returning the sequence of `PutObjectCommand`s it issues.  For a file entry
the key is `subdomain ++ "/" ++ name` and the content type is looked up by
extension with the `application/octet-stream` default; for a directory entry
the recursion continues with `subdomain ++ "/" ++ name`.  The mime table is a
parameter, standing for the external `mime-types` package. -/
def direntsPuts (mimeLookup : String → Option String) :
    String → List Dirent → List PutCall
  | _, [] => []
  | sub, Dirent.file n c :: es =>
    ⟨sub ++ "/" ++ n, c, (mimeLookup n).getD "application/octet-stream"⟩ ::
      direntsPuts mimeLookup sub es
  | sub, Dirent.dir n children :: es =>
    direntsPuts mimeLookup (sub ++ "/" ++ n) children ++
      direntsPuts mimeLookup sub es

/-- The files of a tree, each as (relative path from the tree root,
base file name, content). -/
def direntsFiles : List Dirent → List (String × String × String)
  | [] => []
  | Dirent.file n c :: es => (n, n, c) :: direntsFiles es
  | Dirent.dir n children :: es =>
    (direntsFiles children).map (fun f => (n ++ "/" ++ f.1, f.2)) ++
      direntsFiles es

theorem string_append_assoc (a b c : String) : a ++ b ++ c = a ++ (b ++ c) := by
  apply String.ext
  simp [String.data_append, List.append_assoc]

/-- The puts issued by `uploadDirToR2` are exactly one put per file of the
tree, in depth-first order, keyed `namespace ++ "/" ++ relative-path` and
typed from the base file name. -/
theorem direntsPuts_eq (mimeLookup : String → Option String) (sub : String)
    (es : List Dirent) :
    direntsPuts mimeLookup sub es =
      (direntsFiles es).map (fun f =>
        ⟨sub ++ "/" ++ f.1, f.2.2, (mimeLookup f.2.1).getD "application/octet-stream"⟩) := by
  induction sub, es using direntsPuts.induct mimeLookup with
  | case1 sub => rw [direntsPuts, direntsFiles]; rfl
  | case2 sub n c es ih =>
    rw [direntsPuts, direntsFiles]
    simp only [List.map_cons, ih]
  | case3 sub n children es ih1 ih2 =>
    rw [direntsPuts, direntsFiles]
    simp only [List.map_append, List.map_map, ih1, ih2]
    congr 1
    apply List.map_congr_left
    intro f _
    simp only [Function.comp_apply]
    congr 1
    apply String.ext
    simp [String.data_append, List.append_assoc]

theorem listIsPfxOf_string_append (a b : String) :
    listIsPfxOf a.data (a ++ b).data = true := by
  rw [String.data_append]
  exact listIsPfxOf_append a.data b.data

/-- The effect of one successful `startBuild` run on the bucket
(`src/index.ts` lines 181-185): first `deleteFolderFromR2` on the prefix
`projectName ++ "/"`, then `uploadDirToR2` of the build output directory
under the namespace `projectName`. -/
def startBuildStoreEffect (mimeLookup : String → Option String)
    (projectName : String) (out : List Dirent) (s : Store) : Store :=
  applyPuts (deleteFolderFromR2 s (projectName ++ "/"))
    (direntsPuts mimeLookup projectName out)

theorem direntsPuts_map_key (mimeLookup : String → Option String)
    (sub : String) (es : List Dirent) :
    (direntsPuts mimeLookup sub es).map PutCall.key =
      (direntsFiles es).map (fun f => sub ++ "/" ++ f.1) := by
  rw [direntsPuts_eq, List.map_map]
  rfl

theorem applyPuts_idem (ps : List PutCall) (s : Store) (k : String) :
    lookupStore (applyPuts (applyPuts s ps) ps) k
      = lookupStore (applyPuts s ps) k := by
  have h1 := lookupStore_applyPuts ps (applyPuts s ps) k
  have h2 := lookupStore_applyPuts ps s k
  cases hl : lastPut? ps k <;> rw [h1, h2, hl]

/-- A store operation performed by the pipeline. -/
inductive StoreOp where
  | del (key : String)
  | put (p : PutCall)
deriving DecidableEq, Repr

def applyOp (s : Store) : StoreOp → Store
  | .del k => deleteKey s k
  | .put p => putObject s p

def applyOps (s : Store) (ops : List StoreOp) : Store :=
  ops.foldl applyOp s

/-- The sequence of store operations one `startBuild` run performs, in
program order: `deleteFolderFromR2` issues one delete per key listed under
`projectName ++ "/"`, and only afterwards does `uploadDirToR2` issue its
puts. -/
def runStoreTrace (mimeLookup : String → Option String)
    (projectName : String) (out : List Dirent) (s : Store) : List StoreOp :=
  (listKeysWithPfx s (projectName ++ "/")).map StoreOp.del ++
    (direntsPuts mimeLookup projectName out).map StoreOp.put

theorem applyOps_map_del (ks : List String) (s : Store) :
    applyOps s (ks.map StoreOp.del) = ks.foldl deleteKey s := by
  simp only [applyOps, List.foldl_map]
  rfl

/-- Claim C1: after a successful pipeline run for a project, the artifact
namespace `projectName ++ "/"` contains exactly the keys of the new build
output's files (`projectName ++ "/" ++ relative-path`): every pre-existing
key under the prefix is gone and nothing outside the new output is present
under the prefix. -/
theorem claim_C1 (mimeLookup : String → Option String) (projectName : String)
    (out : List Dirent) (s : Store) (k : String) :
    (listIsPfxOf (projectName ++ "/").data k.data = true ∧
      (lookupStore (startBuildStoreEffect mimeLookup projectName out s) k).isSome = true)
    ↔ k ∈ (direntsFiles out).map (fun f => projectName ++ "/" ++ f.1) := by
  have hkeys := direntsPuts_map_key mimeLookup projectName out
  constructor
  · rintro ⟨hpfx, hsome⟩
    rw [startBuildStoreEffect, lookupStore_applyPuts] at hsome
    cases hl : lastPut? (direntsPuts mimeLookup projectName out) k with
    | none =>
      rw [hl] at hsome
      simp only [] at hsome
      rw [lookupStore_deleteFolderFromR2, hpfx] at hsome
      simp at hsome
    | some q =>
      have : k ∈ (direntsPuts mimeLookup projectName out).map PutCall.key := by
        by_contra hmem
        rw [(lastPut?_eq_none_iff _ _).mpr hmem] at hl
        exact absurd hl (by simp)
      rwa [hkeys] at this
  · intro hmem
    have hkey : k ∈ (direntsPuts mimeLookup projectName out).map PutCall.key := by
      rw [hkeys]; exact hmem
    constructor
    · obtain ⟨f, _, rfl⟩ := List.mem_map.mp hmem
      exact listIsPfxOf_string_append (projectName ++ "/") f.1
    · rw [startBuildStoreEffect, lookupStore_applyPuts]
      cases hl : lastPut? (direntsPuts mimeLookup projectName out) k with
      | none => exact absurd ((lastPut?_eq_none_iff _ _).mp hl) (by simp [hkey])
      | some q => rfl

/-- Claim C2: within one run, every delete of the old namespace precedes
every upload in the operation trace, and at the boundary point between the
delete stage and the upload stage the project's namespace is empty. -/
theorem claim_C2 (mimeLookup : String → Option String) (projectName : String)
    (out : List Dirent) (s : Store) :
    runStoreTrace mimeLookup projectName out s =
      (listKeysWithPfx s (projectName ++ "/")).map StoreOp.del ++
        (direntsPuts mimeLookup projectName out).map StoreOp.put
    ∧ ∀ k, listIsPfxOf (projectName ++ "/").data k.data = true →
        lookupStore
          (applyOps s ((listKeysWithPfx s (projectName ++ "/")).map StoreOp.del))
          k = none := by
  refine ⟨rfl, fun k hpfx => ?_⟩
  rw [applyOps_map_del]
  rw [show (listKeysWithPfx s (projectName ++ "/")).foldl deleteKey s
        = deleteFolderFromR2 s (projectName ++ "/") from rfl]
  rw [lookupStore_deleteFolderFromR2, hpfx]
  simp

/-- Witness for C2: a concrete bucket holding one old artifact of project
`proj`; after the delete stage (and before any upload) the old key is gone. -/
theorem claim_C2_witness :
    lookupStore
      (applyOps [("proj/old.html", ⟨"x", some "text/html"⟩)]
        ((listKeysWithPfx [("proj/old.html", ⟨"x", some "text/html"⟩)]
            ("proj" ++ "/")).map StoreOp.del))
      "proj/old.html" = none :=
  (claim_C2 (fun _ => none) "proj" []
      [("proj/old.html", ⟨"x", some "text/html"⟩)]).2 "proj/old.html" (by decide)

/-- Claim C9: `uploadDirToR2` performs exactly one put per file of the tree
(at any depth), each keyed `namespace ++ "/" ++ relative-path`, and applying
the same upload twice yields the same bucket contents as applying it once
(idempotent overwrite). -/
theorem claim_C9 (mimeLookup : String → Option String) (sub : String)
    (es : List Dirent) (s : Store) :
    (direntsPuts mimeLookup sub es).length = (direntsFiles es).length
    ∧ (direntsPuts mimeLookup sub es).map PutCall.key =
        (direntsFiles es).map (fun f => sub ++ "/" ++ f.1)
    ∧ ∀ k, lookupStore
          (applyPuts (applyPuts s (direntsPuts mimeLookup sub es))
            (direntsPuts mimeLookup sub es)) k
        = lookupStore (applyPuts s (direntsPuts mimeLookup sub es)) k := by
  refine ⟨?_, direntsPuts_map_key mimeLookup sub es, fun k => applyPuts_idem _ _ k⟩
  rw [direntsPuts_eq, List.length_map]

/-!  The `startBuild` pipeline and its Build record (`src/index.ts`,
lines 141-203).  The awaited stages inside the `try` block are modelled by
the outcome each external call would have: `Except.error e` stands for a
rejected promise / thrown exception with diagnostic text `e`, and any such
error transfers control to the `catch` block.  The record store is assumed
reliable (spec section 5): the insert and the single terminal update always
take effect. -/

/-- Status values of a Build record. -/
inductive BuildStatus where
  | pending
  | success
  | failed
deriving DecidableEq, Repr

/-- A Build record row, with the fields `startBuild` writes. -/
structure BuildRecord where
  projectId : Nat
  build_status : BuildStatus
  build_number : Nat
  build_url : String
  build_log : String
deriving DecidableEq, Repr

/-- The pipeline stages awaited inside `startBuild`'s try block, in program
order. -/
inductive Stage where
  | clone
  | manifest
  | install
  | build
  | deleteOld
  | upload
  | rmTemp
deriving DecidableEq, Repr

/-- Outcome of each external call a `startBuild` run would make, standing
for the clone, the manifest read/parse, the two `execPromise` commands, the
two store stages, and the scratch-directory removal. -/
structure RunEnv where
  clone : Except String Unit
  manifest : Except String Unit
  install : Except String String
  build : Except String String
  deleteOld : Except String Unit
  upload : Except String Unit
  rmTemp : Except String Unit

/-- The try block of `startBuild`: each stage is awaited in order and the
first rejection aborts the rest (control transfers to `catch`). -/
def runStages (env : RunEnv) : Except String Unit :=
  match env.clone with
  | .error e => .error e
  | .ok _ =>
    match env.manifest with
    | .error e => .error e
    | .ok _ =>
      match env.install with
      | .error e => .error e
      | .ok _ =>
        match env.build with
        | .error e => .error e
        | .ok _ =>
          match env.deleteOld with
          | .error e => .error e
          | .ok _ =>
            match env.upload with
            | .error e => .error e
            | .ok _ =>
              match env.rmTemp with
              | .error e => .error e
              | .ok _ => .ok ()

/-- The stages a run actually starts, in order: a stage runs only when all
earlier stages succeeded. -/
def executedStages (env : RunEnv) : List Stage :=
  Stage.clone ::
    match env.clone with
    | .error _ => []
    | .ok _ =>
      Stage.manifest ::
        match env.manifest with
        | .error _ => []
        | .ok _ =>
          Stage.install ::
            match env.install with
            | .error _ => []
            | .ok _ =>
              Stage.build ::
                match env.build with
                | .error _ => []
                | .ok _ =>
                  Stage.deleteOld ::
                    match env.deleteOld with
                    | .error _ => []
                    | .ok _ =>
                      Stage.upload ::
                        match env.upload with
                        | .error _ => []
                        | .ok _ => [Stage.rmTemp]

/-- The first failing stage of a run together with its diagnostic, if any. -/
def firstFailure (env : RunEnv) : Option (Stage × String) :=
  match env.clone with
  | .error e => some (Stage.clone, e)
  | .ok _ =>
    match env.manifest with
    | .error e => some (Stage.manifest, e)
    | .ok _ =>
      match env.install with
      | .error e => some (Stage.install, e)
      | .ok _ =>
        match env.build with
        | .error e => some (Stage.build, e)
        | .ok _ =>
          match env.deleteOld with
          | .error e => some (Stage.deleteOld, e)
          | .ok _ =>
            match env.upload with
            | .error e => some (Stage.upload, e)
            | .ok _ =>
              match env.rmTemp with
              | .error e => some (Stage.rmTemp, e)
              | .ok _ => none

/-- The fixed stage list up to and including a given stage. -/
def stagesThrough : Stage → List Stage
  | .clone => [.clone]
  | .manifest => [.clone, .manifest]
  | .install => [.clone, .manifest, .install]
  | .build => [.clone, .manifest, .install, .build]
  | .deleteOld => [.clone, .manifest, .install, .build, .deleteOld]
  | .upload => [.clone, .manifest, .install, .build, .deleteOld, .upload]
  | .rmTemp => [.clone, .manifest, .install, .build, .deleteOld, .upload, .rmTemp]

/-- The Build record as `startBuild` inserts it: status pending, build
number 1, deterministic URL, empty log. -/
def initialBuildRecord (projectId : Nat) (projectName baseUrl : String) :
    BuildRecord :=
  { projectId := projectId
    build_status := .pending
    build_number := 1
    build_url := "https://" ++ projectName ++ baseUrl
    build_log := "" }

/-- The final Build record and the console lines of one `startBuild` run:
on a clean try block the status is updated to success; on any rejection the
catch block logs the diagnostic to the console and updates the status to
failed.  No other field of the record is ever updated. -/
def startBuildFinal (projectId : Nat) (projectName baseUrl : String)
    (env : RunEnv) : BuildRecord × List String :=
  let created := initialBuildRecord projectId projectName baseUrl
  match runStages env with
  | .ok _ => ({ created with build_status := .success }, ["🎉 Build Successful!"])
  | .error e => ({ created with build_status := .failed }, ["❌ Build Failed " ++ e])

/-- The sequence of status values written to the Build record by one run:
the insert writes pending, then exactly one update writes the terminal
status. -/
def buildStatusWrites (env : RunEnv) : List BuildStatus :=
  [BuildStatus.pending,
    match runStages env with
    | .ok _ => BuildStatus.success
    | .error _ => BuildStatus.failed]

/-- Claim C3: every run writes the record's status exactly twice: pending at
creation, then exactly one terminal write, which is success or failed; in
particular no history pending-failed-success or pending-success-failed can
occur. -/
theorem claim_C3 (env : RunEnv) :
    buildStatusWrites env = [BuildStatus.pending, BuildStatus.success]
    ∨ buildStatusWrites env = [BuildStatus.pending, BuildStatus.failed] := by
  unfold buildStatusWrites
  cases runStages env with
  | ok _ => exact Or.inl rfl
  | error e => exact Or.inr rfl

/-- The first failing stage determines the try block's error and cuts the
executed-stage list exactly at that stage. -/
theorem firstFailure_spec (env : RunEnv) (st : Stage) (e : String)
    (h : firstFailure env = some (st, e)) :
    runStages env = .error e ∧ executedStages env = stagesThrough st := by
  obtain ⟨c, m, i, b, d, u, r⟩ := env
  cases c <;> cases m <;> cases i <;> cases b <;> cases d <;> cases u <;> cases r <;>
    simp only [firstFailure, Option.some.injEq, Prod.mk.injEq] at h <;>
    first
    | exact Option.noConfusion h
    | (obtain ⟨rfl, rfl⟩ := h
       exact ⟨rfl, rfl⟩)

/-- Claim C4, counterexample: a run whose build step fails with diagnostic
"Error: TS2304 name not found" ends with the Build record's build log still
the empty string, so the diagnostic is not recorded in the record's log
(the claim says it is). -/
theorem claim_C4_counterexample :
    (startBuildFinal 7 "myapp" ".devploy.site"
        ⟨.ok (), .ok (), .ok "added 120 packages",
          .error "Error: TS2304 name not found", .ok (), .ok (), .ok ()⟩).1.build_status
      = BuildStatus.failed
    ∧ (startBuildFinal 7 "myapp" ".devploy.site"
        ⟨.ok (), .ok (), .ok "added 120 packages",
          .error "Error: TS2304 name not found", .ok (), .ok (), .ok ()⟩).1.build_log = ""
    ∧ containsSub "TS2304".data
        (startBuildFinal 7 "myapp" ".devploy.site"
          ⟨.ok (), .ok (), .ok "added 120 packages",
            .error "Error: TS2304 name not found", .ok (), .ok (), .ok ()⟩).1.build_log.data
      = false := by
  decide

/-- Claim C4 as amended: a failure at any stage aborts all subsequent
stages and marks the Build record failed, but the captured diagnostic goes
only to the console output; the record's build log is left as the empty
string it was created with. -/
theorem claim_C4_amended (projectId : Nat) (projectName baseUrl : String)
    (env : RunEnv) (st : Stage) (e : String)
    (h : firstFailure env = some (st, e)) :
    executedStages env = stagesThrough st
    ∧ (startBuildFinal projectId projectName baseUrl env).1.build_status
        = BuildStatus.failed
    ∧ (startBuildFinal projectId projectName baseUrl env).1.build_log = ""
    ∧ (startBuildFinal projectId projectName baseUrl env).2
        = ["❌ Build Failed " ++ e] := by
  obtain ⟨hrun, hexec⟩ := firstFailure_spec env st e h
  refine ⟨hexec, ?_, ?_, ?_⟩ <;>
    simp [startBuildFinal, hrun, initialBuildRecord]

/-- Witness for the amended C4 at a concrete failing run. -/
theorem claim_C4_witness :
    executedStages
        ⟨.ok (), .ok (), .ok "added 120 packages",
          .error "Error: TS2304 name not found", .ok (), .ok (), .ok ()⟩
      = stagesThrough Stage.build
    ∧ (startBuildFinal 7 "myapp" ".devploy.site"
        ⟨.ok (), .ok (), .ok "added 120 packages",
          .error "Error: TS2304 name not found", .ok (), .ok (), .ok ()⟩).1.build_status
      = BuildStatus.failed
    ∧ (startBuildFinal 7 "myapp" ".devploy.site"
        ⟨.ok (), .ok (), .ok "added 120 packages",
          .error "Error: TS2304 name not found", .ok (), .ok (), .ok ()⟩).1.build_log = ""
    ∧ (startBuildFinal 7 "myapp" ".devploy.site"
        ⟨.ok (), .ok (), .ok "added 120 packages",
          .error "Error: TS2304 name not found", .ok (), .ok (), .ok ()⟩).2
      = ["❌ Build Failed " ++ "Error: TS2304 name not found"] :=
  claim_C4_amended 7 "myapp" ".devploy.site"
    ⟨.ok (), .ok (), .ok "added 120 packages",
      .error "Error: TS2304 name not found", .ok (), .ok (), .ok ()⟩
    Stage.build "Error: TS2304 name not found" (by decide)

/-- Claim C5, counterexample: two successive runs for the same project (one
clean, one failing) both insert build number 1, so the second record's build
number is not strictly greater than the first's. -/
theorem claim_C5_counterexample :
    (startBuildFinal 7 "myapp" ".devploy.site"
        ⟨.ok (), .ok (), .ok "", .ok "", .ok (), .ok (), .ok ()⟩).1.build_number = 1
    ∧ (startBuildFinal 7 "myapp" ".devploy.site"
        ⟨.ok (), .ok (), .ok "", .error "boom", .ok (), .ok (), .ok ()⟩).1.build_number = 1
    ∧ ¬ ((startBuildFinal 7 "myapp" ".devploy.site"
            ⟨.ok (), .ok (), .ok "", .error "boom", .ok (), .ok (), .ok ()⟩).1.build_number
          > (startBuildFinal 7 "myapp" ".devploy.site"
              ⟨.ok (), .ok (), .ok "", .ok "", .ok (), .ok (), .ok ()⟩).1.build_number) := by
  decide

/-- Claim C5 as amended: every Build record `startBuild` creates carries the
constant build number 1, regardless of the project or of any earlier builds
(the insert hard-codes `build_number: 1`), so per-project build numbers are
constant rather than strictly increasing. -/
theorem claim_C5_amended (projectId : Nat) (projectName baseUrl : String)
    (env : RunEnv) :
    (startBuildFinal projectId projectName baseUrl env).1.build_number = 1 := by
  unfold startBuildFinal initialBuildRecord
  cases runStages env <;> rfl

/-!  The `execPromise` helper (`src/index.ts`, lines 101-108). -/

instance (α β : Type) [DecidableEq α] [DecidableEq β] :
    DecidableEq (Except α β) := fun a b =>
  match a, b with
  | .ok x, .ok y =>
    if h : x = y then isTrue (by rw [h])
    else isFalse (by intro hh; injection hh; contradiction)
  | .error x, .error y =>
    if h : x = y then isTrue (by rw [h])
    else isFalse (by intro hh; injection hh; contradiction)
  | .ok _, .error _ => isFalse (by intro hh; exact Except.noConfusion hh)
  | .error _, .ok _ => isFalse (by intro hh; exact Except.noConfusion hh)

/-- Observable outcome of the `exec` callback: `err` is `some message` when
the child process exited nonzero or failed to spawn, and the two captured
streams are always present. -/
structure ExecOutcome where
  err : Option String
  stdout : String
  stderr : String
deriving DecidableEq, Repr

/-- Embedding of `execPromise`: on an error the promise rejects with
`stderr || err.message` (the stderr text when nonempty, the error message
otherwise); on success it resolves with the captured stdout. -/
def execPromise (o : ExecOutcome) : Except String String :=
  match o.err with
  | none => .ok o.stdout
  | some msg => .error (if o.stderr = "" then msg else o.stderr)

/-- Claim C6, counterexample: a failing command with captured stdout
"chunk of stdout" and exit message "Command failed: exit code 2" rejects
with the bare stderr string, which carries neither the partial stdout nor
the exit information, contradicting the claimed error payload. -/
theorem claim_C6_counterexample :
    execPromise ⟨some "Command failed: exit code 2", "chunk of stdout",
        "npm ERR! build failed"⟩
      = Except.error "npm ERR! build failed"
    ∧ containsSub "chunk of stdout".data "npm ERR! build failed".data = false
    ∧ containsSub "exit code 2".data "npm ERR! build failed".data = false := by
  decide

/-- Claim C6 as amended: `execPromise` resolves with the captured stdout on
exit code 0, and on a nonzero exit or spawn failure rejects with only the
stderr text when it is nonempty and with the error message otherwise; the
rejection carries no stdout and no structured exit information. -/
theorem claim_C6_amended (o : ExecOutcome) :
    (o.err = none → execPromise o = Except.ok o.stdout)
    ∧ ∀ m, o.err = some m →
        execPromise o = Except.error (if o.stderr = "" then m else o.stderr) := by
  constructor
  · intro h
    simp [execPromise, h]
  · intro m h
    simp [execPromise, h]

/-- Witness for the amended C6: a clean exit returns the stdout, a failing
exit with nonempty stderr rejects with exactly the stderr text. -/
theorem claim_C6_witness :
    execPromise ⟨none, "vite build ok", "ignored"⟩ = Except.ok "vite build ok"
    ∧ execPromise ⟨some "spawn failure", "out", "se"⟩ = Except.error "se" :=
  ⟨(claim_C6_amended ⟨none, "vite build ok", "ignored"⟩).1 rfl,
   ((claim_C6_amended ⟨some "spawn failure", "out", "se"⟩).2 "spawn failure" rfl).trans
     (by decide)⟩

/-!  The GitHub webhook route (`src/index.ts`, lines 216-239). -/

/-- A stored Project row, with the fields the webhook route reads. -/
structure Project where
  id : Nat
  name : String
  repo_url : String
deriving DecidableEq, Repr

/-- The JSON body returned by the webhook route. -/
structure WebhookResp where
  success : Bool
  message : String
deriving DecidableEq, Repr

/-- One fire-and-forget `startBuild(p.id, p.name, repo_url)` call. -/
structure BuildInvocation where
  projectId : Nat
  projectName : String
  repo_url : String
deriving DecidableEq, Repr

/-- Embedding of the webhook route: select the projects whose `repo_url`
equals the payload's `clone_url` (exact string equality); if none, answer
"Project not registered" without invoking the pipeline; otherwise take the
first row, invoke `startBuild` for it without awaiting, and answer
"Build started".  The response is computed without consuming any pipeline
outcome, which is the fire-and-forget behaviour of the code. -/
def webhookHandler (storedProjects : List Project) (clone_url : String) :
    WebhookResp × List BuildInvocation :=
  match storedProjects.filter (fun p => p.repo_url == clone_url) with
  | [] => (⟨false, "Project not registered"⟩, [])
  | p :: _ => (⟨true, "Build started"⟩, [⟨p.id, p.name, clone_url⟩])

theorem find?_eq_head_filter {α : Type} (p : α → Bool) (l : List α) :
    l.find? p = (l.filter p).head? := by
  induction l with
  | nil => rfl
  | cons a t ih =>
    rw [List.find?_cons, List.filter_cons]
    cases h : p a with
    | true => simp
    | false =>
      simp only [Bool.false_eq_true, if_false]
      exact ih

/-- Claim C8: a webhook whose clone_url matches no stored project's
repository URL answers `{success: false, message: "Project not registered"}`
with zero pipeline invocations; a webhook matching a stored project answers
`{success: true, message: "Build started"}` and invokes the pipeline once,
for the first matching project, independently of the run's eventual
outcome. -/
theorem claim_C8 (storedProjects : List Project) (clone_url : String) :
    ((∀ p ∈ storedProjects, p.repo_url ≠ clone_url) →
      webhookHandler storedProjects clone_url
        = (⟨false, "Project not registered"⟩, []))
    ∧ ∀ q, storedProjects.find? (fun p => p.repo_url == clone_url) = some q →
        webhookHandler storedProjects clone_url
          = (⟨true, "Build started"⟩, [⟨q.id, q.name, clone_url⟩]) := by
  constructor
  · intro h
    have hfil : storedProjects.filter (fun p => p.repo_url == clone_url) = [] := by
      rw [List.filter_eq_nil_iff]
      intro a ha
      simp [h a ha]
    unfold webhookHandler
    rw [hfil]
  · intro q hq
    rw [find?_eq_head_filter] at hq
    unfold webhookHandler
    cases hfil : storedProjects.filter (fun p => p.repo_url == clone_url) with
    | nil => rw [hfil] at hq; exact Option.noConfusion hq
    | cons p rest =>
      rw [hfil] at hq
      simp only [List.head?_cons, Option.some.injEq] at hq
      rw [hq]

/-- Witness for C8: one registered project; a non-matching URL is refused
with no invocation, the matching URL starts exactly one build for it. -/
theorem claim_C8_witness :
    webhookHandler [⟨1, "myapp", "https://github.com/a/b.git"⟩]
        "https://github.com/x/y.git"
      = (⟨false, "Project not registered"⟩, [])
    ∧ webhookHandler [⟨1, "myapp", "https://github.com/a/b.git"⟩]
        "https://github.com/a/b.git"
      = (⟨true, "Build started"⟩, [⟨1, "myapp", "https://github.com/a/b.git"⟩]) :=
  ⟨(claim_C8 [⟨1, "myapp", "https://github.com/a/b.git"⟩]
      "https://github.com/x/y.git").1 (by decide),
   (claim_C8 [⟨1, "myapp", "https://github.com/a/b.git"⟩]
      "https://github.com/a/b.git").2 ⟨1, "myapp", "https://github.com/a/b.git"⟩
     (by decide)⟩

/-!  The toolchain detector `detectFramework` (`src/index.ts`, lines
72-96).  The manifest's two dependency groups are modelled as membership
predicates (a dependency entry is a nonempty version string, hence truthy),
and `fs.existsSync(path.join(folder, rel))` as a predicate on the relative
name `rel`. -/

/-- The detector's result triple. -/
structure Framework where
  name : String
  buildCommand : String
  outDir : String
deriving DecidableEq, Repr

/-- Embedding of `detectFramework`: only the Next.js rule consults
`devDependencies`; the Vite rule accepts a config file instead of the
dependency; the CRA and Vue rules require their filesystem condition. -/
def detectFramework (dependencies devDependencies fileExistsAt : String → Bool) :
    Framework :=
  if dependencies "next" || devDependencies "next" then
    ⟨"Next.js", "npm run build", ".next"⟩
  else if dependencies "vite" || fileExistsAt "vite.config.js" then
    ⟨"Vite", "npm run build", "dist"⟩
  else if dependencies "react" && fileExistsAt "public" then
    ⟨"CRA", "npm run build", "dist"⟩
  else if dependencies "vue" && fileExistsAt "vue.config.js" then
    ⟨"Vue", "npm run build", "dist"⟩
  else
    ⟨"Unknown", "npm run build", "dist"⟩

/-- Claim C10, counterexample: a manifest in which vite, react and vue all
appear only under devDependencies and none of the three filesystem
conditions holds, but which also declares next under dependencies, does not
get the fallback result — the Next.js rule fires first.  The claim as
stated quantifies over all such manifests without excluding next. -/
theorem claim_C10_counterexample :
    ((fun s => s == "next") "vite" = false
      ∧ (fun s => s == "vite" || s == "react" || s == "vue") "vite" = true
      ∧ (fun s => s == "next") "react" = false
      ∧ (fun s => s == "vite" || s == "react" || s == "vue") "react" = true
      ∧ (fun s => s == "next") "vue" = false
      ∧ (fun s => s == "vite" || s == "react" || s == "vue") "vue" = true
      ∧ (fun _ : String => false) "vite.config.js" = false
      ∧ (fun _ : String => false) "public" = false
      ∧ (fun _ : String => false) "vue.config.js" = false)
    ∧ detectFramework (fun s => s == "next")
        (fun s => s == "vite" || s == "react" || s == "vue")
        (fun _ => false)
      ≠ ⟨"Unknown", "npm run build", "dist"⟩ := by
  decide

/-- Claim C10 as amended: when the meta-framework dependency (next) is
absent from both dependency groups, a manifest whose vite, react and vue
dependencies (if any) live only under devDependencies and whose
corresponding filesystem conditions fail is resolved to the fallback
toolchain {Unknown, npm run build, dist} — the bundler and UI-library rules
never consult devDependencies. -/
theorem claim_C10_amended (dependencies devDependencies fileExistsAt : String → Bool)
    (hn1 : dependencies "next" = false) (hn2 : devDependencies "next" = false)
    (hv : dependencies "vite" = false) (hr : dependencies "react" = false)
    (hu : dependencies "vue" = false)
    (hf1 : fileExistsAt "vite.config.js" = false)
    (hf2 : fileExistsAt "public" = false)
    (hf3 : fileExistsAt "vue.config.js" = false) :
    detectFramework dependencies devDependencies fileExistsAt
      = ⟨"Unknown", "npm run build", "dist"⟩ := by
  simp [detectFramework, hn1, hn2, hv, hr, hu, hf1, hf2, hf3]

/-- Witness for the amended C10: vite, react, vue only under
devDependencies, no config files, no next anywhere: fallback. -/
theorem claim_C10_witness :
    detectFramework (fun _ => false)
        (fun s => s == "vite" || s == "react" || s == "vue")
        (fun _ => false)
      = ⟨"Unknown", "npm run build", "dist"⟩ :=
  claim_C10_amended (fun _ => false)
    (fun s => s == "vite" || s == "react" || s == "vue") (fun _ => false)
    rfl (by decide) rfl rfl rfl rfl rfl rfl

/-!  The serve route `app.get("*")` of the published revision: subdomain
derivation, path rewriting, key construction, content-type defaulting and
the 404 branch. -/

/-- Removal of the first occurrence of `pat` (JS `String.replace` with a
string pattern and an empty replacement replaces only the first
occurrence). -/
def removeFirstOcc : List Char → List Char → List Char
  | [], _ => []
  | c :: rest, pat =>
    if listIsPfxOf pat (c :: rest) then List.drop pat.length (c :: rest)
    else c :: removeFirstOcc rest pat

/-- The subdomain computed by the serve route:
`host.replace("." ++ domainRoot, "")`.  `domainRoot` is the configured apex
domain (hard-coded `"devploy-backend.avijit.site"` in the source). -/
def serveSubdomain (domainRoot host : String) : String :=
  ⟨removeFirstOcc host.data ('.' :: domainRoot.data)⟩

/-- The request path after the route's rewrite: exactly `/` becomes
`/index.html`, anything else is used verbatim. -/
def servePath (reqPath : String) : String :=
  if reqPath = "/" then "/index.html" else reqPath

/-- The object key the route fetches: `subdomain ++ rewritten path`. -/
def serveKey (domainRoot host reqPath : String) : String :=
  serveSubdomain domainRoot host ++ servePath reqPath

/-- JS `a || b` on strings: `b` when `a` is absent or empty. -/
def jsOrElse (o : Option String) (dflt : String) : String :=
  match o with
  | none => dflt
  | some s => if s = "" then dflt else s

/-- The serve route's response. -/
inductive ServeResult where
  | ok (body : String) (contentType : String)
  | notFound (body : String) (status : Nat)
deriving DecidableEq, Repr

/-- Embedding of the serve route: fetch the key; on success answer the body
with `ContentType || "text/html"`; on any fetch failure answer 404 with body
"Not Found" and no fallback. -/
def serveRoute (domainRoot : String) (s : Store) (host reqPath : String) :
    ServeResult :=
  match lookupStore s (serveKey domainRoot host reqPath) with
  | some obj => .ok obj.body (jsOrElse obj.contentType "text/html")
  | none => .notFound "Not Found" 404

/-- Stripping the first occurrence of `pat` from `l ++ pat` yields `l`,
provided `pat` is nonempty and occurs nowhere strictly inside `l ++ pat`
before the final position. -/
theorem removeFirstOcc_strip (l pat : List Char) (hne : pat ≠ [])
    (hocc : ∀ i, i < l.length →
      listIsPfxOf pat ((l ++ pat).drop i) = false) :
    removeFirstOcc (l ++ pat) pat = l := by
  induction l with
  | nil =>
    cases pat with
    | nil => exact absurd rfl hne
    | cons p ps =>
      show removeFirstOcc (p :: ps) (p :: ps) = []
      rw [removeFirstOcc, listIsPfxOf_self]
      simp
  | cons c t ih =>
    have h0 : listIsPfxOf pat (c :: (t ++ pat)) = false := by
      have := hocc 0 (by simp)
      simpa using this
    show removeFirstOcc (c :: (t ++ pat)) pat = c :: t
    rw [removeFirstOcc, h0]
    simp only [Bool.false_eq_true, if_false, List.cons.injEq, true_and]
    exact ih (fun i hi => by
      have := hocc (i + 1) (by simpa using Nat.succ_lt_succ hi)
      simpa using this)

/-- For a host of the shape `ns ++ "." ++ domainRoot` where the pattern
`"." ++ domainRoot` has no earlier occurrence, the serve route's subdomain
is exactly `ns`. -/
theorem serveSubdomain_eq (domainRoot ns : String)
    (hocc : ∀ i, i < ns.data.length →
      listIsPfxOf ('.' :: domainRoot.data)
        ((ns.data ++ '.' :: domainRoot.data).drop i) = false) :
    serveSubdomain domainRoot (ns ++ "." ++ domainRoot) = ns := by
  unfold serveSubdomain
  have hdata : (ns ++ "." ++ domainRoot).data
      = ns.data ++ ('.' :: domainRoot.data) := by
    rw [String.data_append, String.data_append]
    simp
  rw [hdata, removeFirstOcc_strip ns.data ('.' :: domainRoot.data)
    (by simp) hocc]

/-- Claim C7: for a request with host `ns ++ "." ++ domainRoot` (the apex
suffix occurring only at the end) and path `reqPath`, the fetched key is the
namespace followed by the path, with `/` rewritten to `/index.html` and any
other path used verbatim; a present object is served with its stored content
type, an absent or empty stored content type defaults to text/html, and an
absent key answers 404 "Not Found" with no fallback. -/
theorem claim_C7 (domainRoot ns reqPath : String) (s : Store)
    (hocc : ∀ i, i < ns.data.length →
      listIsPfxOf ('.' :: domainRoot.data)
        ((ns.data ++ '.' :: domainRoot.data).drop i) = false) :
    serveKey domainRoot (ns ++ "." ++ domainRoot) reqPath
      = ns ++ (if reqPath = "/" then "/index.html" else reqPath)
    ∧ (∀ obj ct,
        lookupStore s (serveKey domainRoot (ns ++ "." ++ domainRoot) reqPath)
          = some obj →
        obj.contentType = some ct → ct ≠ "" →
        serveRoute domainRoot s (ns ++ "." ++ domainRoot) reqPath
          = ServeResult.ok obj.body ct)
    ∧ (∀ obj,
        lookupStore s (serveKey domainRoot (ns ++ "." ++ domainRoot) reqPath)
          = some obj →
        obj.contentType = none →
        serveRoute domainRoot s (ns ++ "." ++ domainRoot) reqPath
          = ServeResult.ok obj.body "text/html")
    ∧ (lookupStore s (serveKey domainRoot (ns ++ "." ++ domainRoot) reqPath)
          = none →
        serveRoute domainRoot s (ns ++ "." ++ domainRoot) reqPath
          = ServeResult.notFound "Not Found" 404) := by
  refine ⟨?_, ?_, ?_, ?_⟩
  · unfold serveKey servePath
    rw [serveSubdomain_eq domainRoot ns hocc]
  · intro obj ct hlook hct hne
    unfold serveRoute
    rw [hlook]
    simp [jsOrElse, hct, hne]
  · intro obj hlook hct
    unfold serveRoute
    rw [hlook]
    simp [jsOrElse, hct]
  · intro hlook
    unfold serveRoute
    rw [hlook]

/-- Witness for C7: host `myapp.example.com` with apex suffix
`.example.com` and path `/` resolves the key `myapp/index.html` and serves
the stored object with its stored content type. -/
theorem claim_C7_witness :
    serveKey "example.com" ("myapp" ++ "." ++ "example.com") "/"
      = "myapp" ++ "/index.html"
    ∧ serveRoute "example.com"
        [("myapp/index.html", ⟨"<h1>hi</h1>", some "text/html"⟩)]
        ("myapp" ++ "." ++ "example.com") "/"
      = ServeResult.ok "<h1>hi</h1>" "text/html" := by
  have h := claim_C7 "example.com" "myapp" "/"
    [("myapp/index.html", ⟨"<h1>hi</h1>", some "text/html"⟩)] (by decide)
  exact ⟨h.1.trans (by decide),
    h.2.1 ⟨"<h1>hi</h1>", some "text/html"⟩ "text/html" (by decide) rfl
      (by decide)⟩
